import Mathlib

/-!
Shallow embedding of the Lead-CRM core (a sales-pipeline tracker):
the lead data model, the lead-scoring function, the stage-transition
update, and the four analytics aggregations (funnel, revenue trend,
leaderboard, source conversion).

Modelling conventions:
* JavaScript numbers are modelled as `ℚ` (currency amounts, probabilities);
  counters and the lead score, which only ever hold non-negative integers,
  are modelled as `Nat`.
* The `stage` and `status` fields are drawn from the closed TypeScript
  enums `Stage` and `Status`, so they are inductive types here; the
  `source`, `budgetRange` and activity `outcome` fields are compared
  against string literals by the code ("handle string matching loosely in
  case of sheet data variations"), so they are `String`s, which keeps
  unrecognized values representable.
* A JavaScript `Record<string, T>` built by `reduce` is modelled as an
  insertion-ordered association list `List (κ × ρ)`: existing keys keep
  their position and new keys are appended, which is the enumeration
  order `Object.values` yields for the string keys used here.
* `Array.prototype.sort` (a stable sort) is modelled by `List.mergeSort`,
  which is stable; for a total preorder the stable sorted permutation is
  unique, so any stable sort is an exact model.
* `createdAt` is an ISO timestamp string in the source, consumed only
  through `new Date(createdAt).getFullYear()` and `.getMonth() + 1`; it
  is modelled by its observable year and month.
-/

/-- Pipeline stage of a lead (TypeScript `enum Stage` in types.ts). -/
inductive Stage where
  | New
  | Contacted
  | Qualified
  | Proposal
  | Won
  | Lost
deriving DecidableEq, Repr

/-- Lead status (TypeScript `enum Status` in types.ts); `OnHold` prints
as "On Hold" in the source. -/
inductive Status where
  | Open
  | Won
  | Lost
  | OnHold
deriving DecidableEq, Repr

/-- A sales lead (interface `Lead` in types.ts). `source` carries the
string value of the `Source` enum ("Website", "Referral", "LinkedIn",
"Event", "Cold Call") and `budgetRange` the value of `BudgetRange`
("<1L", "1–5L", "5–10L", ">10L"), but both may drift to other strings
in sheet-backed data, hence `String`. `createdAtYear`/`createdAtMonth`
are the year and 1-based month that `new Date(createdAt)` exposes. -/
structure Lead where
  id : String
  leadName : String
  companyName : String
  email : String
  phone : String
  industry : String
  source : String
  budgetRange : String
  stage : Stage
  status : Status
  leadOwner : String
  leadScore : ℚ
  probability : ℚ
  dealValue : ℚ
  expectedValue : ℚ
  createdAtYear : Nat
  createdAtMonth : Nat
  notes : String
deriving DecidableEq, Repr

/-- A logged interaction against one lead (interface `Activity` in
types.ts). `type` carries the `ActivityType` string and `outcome` the
`ActivityOutcome` string ("Interested", "Follow-up Required",
"No Response", "Not Interested"), kept as `String` for drift tolerance. -/
structure Activity where
  id : String
  leadId : String
  type : String
  subject : String
  description : String
  outcome : String
  dateTime : String
  createdBy : String
deriving DecidableEq, Repr

/-! ## StageTransition (`handleStageChange` in components/Layout.tsx)

```
let newProb = lead.probability;
if(newStage === Stage.Won) newProb = 100;
if(newStage === Stage.Lost) newProb = 0;
if(newStage === Stage.Proposal) newProb = 70;
if(newStage === Stage.Qualified) newProb = 40;
const updatedLead = { ...lead, stage: newStage,
    status: newStage === Stage.Won ? Status.Won
          : newStage === Stage.Lost ? Status.Lost : Status.Open,
    probability: newProb,
    expectedValue: lead.dealValue * (newProb / 100) };
```
The target stage comes from a `<select>` populated with
`Object.values(Stage)`, so it ranges over the closed enum. -/

/-- The pure lead transformation performed by `handleStageChange`. -/
def handleStageChange (lead : Lead) (newStage : Stage) : Lead :=
  let newProb := lead.probability
  let newProb := if newStage = Stage.Won then (100 : ℚ) else newProb
  let newProb := if newStage = Stage.Lost then (0 : ℚ) else newProb
  let newProb := if newStage = Stage.Proposal then (70 : ℚ) else newProb
  let newProb := if newStage = Stage.Qualified then (40 : ℚ) else newProb
  { lead with
    stage := newStage
    status := if newStage = Stage.Won then Status.Won
              else if newStage = Stage.Lost then Status.Lost
              else Status.Open
    probability := newProb
    expectedValue := lead.dealValue * (newProb / 100) }

/-! ## ScoreEngine (`calculateLeadScore` in services/storageService.ts) -/

/-- The lead-scoring function. The source accumulates into a mutable
`score` starting at 0 and returns `Math.min(score, 100)`; every
contribution is a non-negative integer, so the score is a `Nat`. -/
def calculateLeadScore (lead : Lead) (leadActivities : List Activity) : Nat :=
  let score : Nat := 0
  let score :=
    if lead.source = "Referral" then score + 20
    else if lead.source = "Website" then score + 10
    else if lead.source = "Cold Call" then score + 5
    else score
  let score :=
    if lead.budgetRange = ">10L" then score + 30
    else if lead.budgetRange = "5–10L" then score + 20
    else if lead.budgetRange = "1–5L" then score + 10
    else score
  let score :=
    match leadActivities with
    | [] => score
    | lastActivity :: _ =>
      let score := if lastActivity.outcome = "Interested" then score + 20 else score
      if lastActivity.outcome = "Follow-up Required" then score + 10 else score
  let score := if leadActivities.length > 3 then score + 10 else score
  min score 100

/-! ## Claim-side restatements of the scoring rules (for the refinement
comparison in claim C2; these follow the claim's wording, while
`calculateLeadScore` above follows the source). -/

/-- Source contribution as the claim states it: Referral 20, Website 10,
Cold Call 5, anything else (LinkedIn, Event, unrecognized) 0. -/
def specSourcePoints (source : String) : Nat :=
  if source = "Referral" then 20
  else if source = "Website" then 10
  else if source = "Cold Call" then 5
  else 0

/-- Budget contribution as the claim states it. -/
def specBudgetPoints (budgetRange : String) : Nat :=
  if budgetRange = ">10L" then 30
  else if budgetRange = "5–10L" then 20
  else if budgetRange = "1–5L" then 10
  else 0

/-- Engagement contribution as the claim states it: from the first
(most recent) activity only, 0 on an empty history. -/
def specEngagementPoints : List Activity → Nat
  | [] => 0
  | a :: _ =>
    if a.outcome = "Interested" then 20
    else if a.outcome = "Follow-up Required" then 10
    else 0

/-- Volume bonus as the claim states it. -/
def specVolumeBonus (acts : List Activity) : Nat :=
  if acts.length > 3 then 10 else 0

lemma srcChain (s : String) (n : Nat) :
    (if s = "Referral" then n + 20
     else if s = "Website" then n + 10
     else if s = "Cold Call" then n + 5
     else n) = n + specSourcePoints s := by
  simp only [specSourcePoints]; split_ifs <;> omega

lemma budChain (b : String) (n : Nat) :
    (if b = ">10L" then n + 30
     else if b = "5–10L" then n + 20
     else if b = "1–5L" then n + 10
     else n) = n + specBudgetPoints b := by
  simp only [specBudgetPoints]; split_ifs <;> omega

lemma engChain (a : Activity) (n : Nat) :
    (if a.outcome = "Follow-up Required"
       then (if a.outcome = "Interested" then n + 20 else n) + 10
       else (if a.outcome = "Interested" then n + 20 else n))
      = n + (if a.outcome = "Interested" then 20
             else if a.outcome = "Follow-up Required" then 10
             else 0) := by
  rcases eq_or_ne a.outcome "Interested" with h1 | h1
  · have h2 : a.outcome ≠ "Follow-up Required" := by
      rw [h1]; decide
    rw [if_neg h2, if_pos h1, if_pos h1]
  · rw [if_neg h1, if_neg h1]
    split_ifs <;> omega

lemma volChain (acts : List Activity) (n : Nat) :
    (if acts.length > 3 then n + 10 else n) = n + specVolumeBonus acts := by
  simp only [specVolumeBonus]; split_ifs <;> omega

lemma calculateLeadScore_decomp (lead : Lead) (acts : List Activity) :
    calculateLeadScore lead acts
      = min 100 (specSourcePoints lead.source + specBudgetPoints lead.budgetRange
          + specEngagementPoints acts + specVolumeBonus acts) := by
  cases acts with
  | nil =>
    simp only [calculateLeadScore, srcChain, budChain, volChain, specEngagementPoints]
    omega
  | cons a as =>
    simp only [calculateLeadScore, srcChain, budChain, engChain, volChain,
      specEngagementPoints]
    omega

/-- Sample data used to exercise the definitions at concrete inputs. -/
def baseLead : Lead :=
  { id := "L1", leadName := "Asha", companyName := "Acme", email := "asha@acme.com",
    phone := "0", industry := "Tech", source := "Website", budgetRange := "<1L",
    stage := Stage.New, status := Status.Open, leadOwner := "sales@apex.com",
    leadScore := 0, probability := 10, dealValue := 0, expectedValue := 0,
    createdAtYear := 2024, createdAtMonth := 1, notes := "" }

/-- A sample activity with a given outcome. -/
def mkActivity (outcome : String) : Activity :=
  { id := "A1", leadId := "L1", type := "Call", subject := "s", description := "d",
    outcome := outcome, dateTime := "2024-01-01T00:00:00Z", createdBy := "u" }

/-- Claim C1: the stage transition sets `stage` to the target, derives
`probability` and `status` by the fixed table (Won:100/Won, Lost:0/Lost,
Proposal:70/Open, Qualified:40/Open, New and Contacted: probability
unchanged, status Open), always recomputes `expectedValue` as
`dealValue * probability / 100` from the resulting probability, and in
particular a lead with `dealValue` 1000 moved to Proposal/Won/Lost gets
expectedValue 700/1000/0. -/
theorem stageTransition_table (lead : Lead) (s : Stage) :
    (handleStageChange lead s).stage = s
    ∧ (handleStageChange lead s).dealValue = lead.dealValue
    ∧ (handleStageChange lead Stage.Won).probability = 100
    ∧ (handleStageChange lead Stage.Won).status = Status.Won
    ∧ (handleStageChange lead Stage.Lost).probability = 0
    ∧ (handleStageChange lead Stage.Lost).status = Status.Lost
    ∧ (handleStageChange lead Stage.Proposal).probability = 70
    ∧ (handleStageChange lead Stage.Proposal).status = Status.Open
    ∧ (handleStageChange lead Stage.Qualified).probability = 40
    ∧ (handleStageChange lead Stage.Qualified).status = Status.Open
    ∧ (handleStageChange lead Stage.New).probability = lead.probability
    ∧ (handleStageChange lead Stage.New).status = Status.Open
    ∧ (handleStageChange lead Stage.Contacted).probability = lead.probability
    ∧ (handleStageChange lead Stage.Contacted).status = Status.Open
    ∧ (handleStageChange lead s).expectedValue
        = (handleStageChange lead s).dealValue * (handleStageChange lead s).probability / 100
    ∧ (handleStageChange { lead with dealValue := 1000 } Stage.Proposal).expectedValue = 700
    ∧ (handleStageChange { lead with dealValue := 1000 } Stage.Won).expectedValue = 1000
    ∧ (handleStageChange { lead with dealValue := 1000 } Stage.Lost).expectedValue = 0 := by
  refine ⟨?_, ?_, ?_, ?_, ?_, ?_, ?_, ?_, ?_, ?_, ?_, ?_, ?_, ?_, ?_, ?_, ?_, ?_⟩ <;>
    cases s <;> simp [handleStageChange, mul_div_assoc] <;> norm_num

/-- Claim C4: after every stage transition the returned lead satisfies
`expectedValue = dealValue * probability / 100` in terms of its own
fields. -/
theorem stageTransition_expectedValue_invariant (lead : Lead) (s : Stage) :
    (handleStageChange lead s).expectedValue
      = (handleStageChange lead s).dealValue * (handleStageChange lead s).probability / 100 := by
  cases s <;> simp [handleStageChange, mul_div_assoc]

/-- Claim C9: the stage transition is idempotent: transitioning to the
same target stage twice yields exactly the lead obtained by
transitioning once. -/
theorem stageTransition_idempotent (lead : Lead) (s : Stage) :
    handleStageChange (handleStageChange lead s) s = handleStageChange lead s := by
  cases s <;> rfl

/-- Claim C2: the lead score is exactly
`min 100 (source + budget + engagement + volume)` with the fixed
contribution tables (engagement from the head of the activity list only,
volume 10 when more than 3 activities), and hence is at most 100. -/
theorem leadScore_formula (lead : Lead) (acts : List Activity) :
    calculateLeadScore lead acts
      = min 100 (specSourcePoints lead.source + specBudgetPoints lead.budgetRange
          + specEngagementPoints acts + specVolumeBonus acts)
    ∧ calculateLeadScore lead acts ≤ 100 := by
  refine ⟨calculateLeadScore_decomp lead acts, ?_⟩
  rw [calculateLeadScore_decomp lead acts]
  exact min_le_left _ _

/-- Claim C10: the score never exceeds 80, and 80 is attained (source
Referral, budget above 10L, most recent outcome Interested, more than 3
activities), so the clamp at 100 never decides the result. -/
theorem leadScore_le_80 (lead : Lead) (acts : List Activity) :
    calculateLeadScore lead acts ≤ 80
    ∧ calculateLeadScore { baseLead with source := "Referral", budgetRange := ">10L" }
        [mkActivity "Interested", mkActivity "No Response",
         mkActivity "No Response", mkActivity "No Response"] = 80 := by
  constructor
  · rw [calculateLeadScore_decomp lead acts]
    have hs : specSourcePoints lead.source ≤ 20 := by
      unfold specSourcePoints; split_ifs <;> omega
    have hb : specBudgetPoints lead.budgetRange ≤ 30 := by
      unfold specBudgetPoints; split_ifs <;> omega
    have he : specEngagementPoints acts ≤ 20 := by
      cases acts with
      | nil => simp [specEngagementPoints]
      | cons a as =>
        simp only [specEngagementPoints]
        split_ifs <;> omega
    have hv : specVolumeBonus acts ≤ 10 := by
      unfold specVolumeBonus; split_ifs <;> omega
    calc min 100 (specSourcePoints lead.source + specBudgetPoints lead.budgetRange
          + specEngagementPoints acts + specVolumeBonus acts)
        ≤ specSourcePoints lead.source + specBudgetPoints lead.budgetRange
          + specEngagementPoints acts + specVolumeBonus acts := min_le_right _ _
      _ ≤ 80 := by omega
  · decide

/-! ## Association-list model of JavaScript object accumulation

The four aggregations in pages/Analytics.tsx all use the same pattern:
`leads.reduce((acc, lead) => { if (!acc[key]) acc[key] = init;
acc[key] = step(acc[key]); return acc; }, {})` over a
`Record<string, Row>`. A string-keyed JS object enumerates its
(non-index) keys in insertion order, so the record is modelled as an
association list where an existing key is updated in place and a new
key is appended at the end; `Object.values` is then `map Prod.snd`. -/

/-- One upsert step `acc[k] = f(acc[k] ?? d)` on the record. -/
def updateAList {κ ρ : Type} [DecidableEq κ] (k : κ) (d : ρ) (f : ρ → ρ) :
    List (κ × ρ) → List (κ × ρ)
  | [] => [(k, f d)]
  | (k', v) :: rest =>
    if k' = k then (k', f v) :: rest else (k', v) :: updateAList k d f rest

/-- Lookup `acc[k]`. -/
def lookupA {κ ρ : Type} [DecidableEq κ] (k : κ) : List (κ × ρ) → Option ρ
  | [] => none
  | (k', v) :: rest => if k' = k then some v else lookupA k rest

/-- The reduce-into-a-record pattern shared by the aggregations: fold the
input, upserting the row at `key x` (created by `init x`, then updated by
`step x`). -/
def jsGroupBy {α κ ρ : Type} [DecidableEq κ]
    (key : α → κ) (init : α → ρ) (step : α → ρ → ρ) (xs : List α) : List (κ × ρ) :=
  xs.foldl (fun acc x => updateAList (key x) (init x) (step x) acc) []

/-- The value the row at `k` accumulates over `xs` starting from `r`. -/
def foldKey {α κ ρ : Type} [DecidableEq κ]
    (key : α → κ) (step : α → ρ → ρ) (k : κ) : List α → ρ → ρ
  | [], r => r
  | x :: xs, r => foldKey key step k xs (if key x = k then step x r else r)

/-- The row at `k` after the whole fold, when `k` was absent initially:
`none` when no element has key `k`, otherwise the row created at the
first such element and accumulated over the rest. -/
def buildKey {α κ ρ : Type} [DecidableEq κ]
    (key : α → κ) (init : α → ρ) (step : α → ρ → ρ) (k : κ) : List α → Option ρ
  | [] => none
  | x :: xs =>
    if key x = k then some (foldKey key step k xs (step x (init x)))
    else buildKey key init step k xs

lemma lookupA_updateAList_self {κ ρ : Type} [DecidableEq κ] (k : κ) (d : ρ) (f : ρ → ρ) :
    ∀ l : List (κ × ρ), lookupA k (updateAList k d f l) = some (f ((lookupA k l).getD d))
  | [] => by simp [updateAList, lookupA]
  | (k', v) :: rest => by
    by_cases h : k' = k
    · subst h
      simp [updateAList, lookupA]
    · simp only [updateAList, lookupA, if_neg h]
      exact lookupA_updateAList_self k d f rest

lemma lookupA_updateAList_ne {κ ρ : Type} [DecidableEq κ] {k k' : κ} (d : ρ) (f : ρ → ρ)
    (hne : k ≠ k') :
    ∀ l : List (κ × ρ), lookupA k' (updateAList k d f l) = lookupA k' l
  | [] => by simp [updateAList, lookupA, hne]
  | (k'', v) :: rest => by
    by_cases h : k'' = k
    · subst h
      simp [updateAList, lookupA, hne]
    · simp only [updateAList, lookupA, if_neg h]
      by_cases h2 : k'' = k'
      · simp [h2]
      · simp only [if_neg h2]
        exact lookupA_updateAList_ne d f hne rest

lemma mem_keys_updateAList {κ ρ : Type} [DecidableEq κ] (k k' : κ) (d : ρ) (f : ρ → ρ) :
    ∀ l : List (κ × ρ),
      (k' ∈ (updateAList k d f l).map Prod.fst) ↔ (k' = k ∨ k' ∈ l.map Prod.fst)
  | [] => by simp [updateAList]
  | (k'', v) :: rest => by
    by_cases h : k'' = k
    · subst h
      simp [updateAList]
    · simp only [updateAList, if_neg h, List.map_cons, List.mem_cons,
        mem_keys_updateAList k k' d f rest]
      tauto

lemma nodup_keys_updateAList {κ ρ : Type} [DecidableEq κ] (k : κ) (d : ρ) (f : ρ → ρ) :
    ∀ l : List (κ × ρ), (l.map Prod.fst).Nodup → ((updateAList k d f l).map Prod.fst).Nodup
  | [] => by simp [updateAList]
  | (k'', v) :: rest => by
    intro hnd
    simp only [List.map_cons, List.nodup_cons] at hnd
    by_cases h : k'' = k
    · subst h
      have hupd : updateAList k'' d f ((k'', v) :: rest) = (k'', f v) :: rest := by
        simp [updateAList]
      rw [hupd]
      simp only [List.map_cons, List.nodup_cons]
      exact hnd
    · simp only [updateAList, if_neg h, List.map_cons, List.nodup_cons,
        mem_keys_updateAList k k'' d f rest]
      refine ⟨?_, nodup_keys_updateAList k d f rest hnd.2⟩
      rintro (rfl | hmem)
      · exact h rfl
      · exact hnd.1 hmem

lemma lookupA_foldl_some {α κ ρ : Type} [DecidableEq κ]
    (key : α → κ) (init : α → ρ) (step : α → ρ → ρ) (k : κ) :
    ∀ (xs : List α) (acc : List (κ × ρ)) (v : ρ), lookupA k acc = some v →
      lookupA k (xs.foldl (fun acc x => updateAList (key x) (init x) (step x) acc) acc)
        = some (foldKey key step k xs v)
  | [], acc, v, hv => by simpa [foldKey] using hv
  | x :: xs, acc, v, hv => by
    simp only [List.foldl_cons, foldKey]
    by_cases hx : key x = k
    · subst hx
      rw [if_pos rfl]
      refine lookupA_foldl_some key init step (key x) xs _ (step x v) ?_
      rw [lookupA_updateAList_self, hv]
      rfl
    · rw [if_neg hx]
      refine lookupA_foldl_some key init step k xs _ v ?_
      rw [lookupA_updateAList_ne _ _ hx, hv]

lemma lookupA_foldl_none {α κ ρ : Type} [DecidableEq κ]
    (key : α → κ) (init : α → ρ) (step : α → ρ → ρ) (k : κ) :
    ∀ (xs : List α) (acc : List (κ × ρ)), lookupA k acc = none →
      lookupA k (xs.foldl (fun acc x => updateAList (key x) (init x) (step x) acc) acc)
        = buildKey key init step k xs
  | [], acc, hv => by simpa [buildKey] using hv
  | x :: xs, acc, hv => by
    simp only [List.foldl_cons, buildKey]
    by_cases hx : key x = k
    · subst hx
      rw [if_pos rfl]
      refine lookupA_foldl_some key init step (key x) xs _ _ ?_
      rw [lookupA_updateAList_self, hv]
      rfl
    · rw [if_neg hx]
      refine lookupA_foldl_none key init step k xs _ ?_
      rw [lookupA_updateAList_ne _ _ hx, hv]

lemma lookupA_jsGroupBy {α κ ρ : Type} [DecidableEq κ]
    (key : α → κ) (init : α → ρ) (step : α → ρ → ρ) (k : κ) (xs : List α) :
    lookupA k (jsGroupBy key init step xs) = buildKey key init step k xs :=
  lookupA_foldl_none key init step k xs [] rfl

lemma mem_keys_foldl {α κ ρ : Type} [DecidableEq κ]
    (key : α → κ) (init : α → ρ) (step : α → ρ → ρ) (k : κ) :
    ∀ (xs : List α) (acc : List (κ × ρ)),
      (k ∈ ((xs.foldl (fun acc x => updateAList (key x) (init x) (step x) acc) acc).map
        Prod.fst)) ↔ (k ∈ acc.map Prod.fst ∨ ∃ x ∈ xs, key x = k)
  | [], acc => by simp
  | x :: xs, acc => by
    simp only [List.foldl_cons, mem_keys_foldl key init step k xs,
      mem_keys_updateAList (key x) k (init x) (step x) acc, List.mem_cons]
    constructor
    · rintro ((rfl | h) | h)
      · exact Or.inr ⟨x, Or.inl rfl, rfl⟩
      · exact Or.inl h
      · rcases h with ⟨y, hy, hk⟩
        exact Or.inr ⟨y, Or.inr hy, hk⟩
    · rintro (h | ⟨y, (rfl | hy), hk⟩)
      · exact Or.inl (Or.inr h)
      · exact Or.inl (Or.inl hk.symm)
      · exact Or.inr ⟨y, hy, hk⟩

lemma mem_keys_jsGroupBy {α κ ρ : Type} [DecidableEq κ]
    (key : α → κ) (init : α → ρ) (step : α → ρ → ρ) (k : κ) (xs : List α) :
    k ∈ ((jsGroupBy key init step xs).map Prod.fst) ↔ ∃ x ∈ xs, key x = k := by
  rw [jsGroupBy, mem_keys_foldl]
  simp

lemma nodup_keys_foldl {α κ ρ : Type} [DecidableEq κ]
    (key : α → κ) (init : α → ρ) (step : α → ρ → ρ) :
    ∀ (xs : List α) (acc : List (κ × ρ)), (acc.map Prod.fst).Nodup →
      ((xs.foldl (fun acc x => updateAList (key x) (init x) (step x) acc) acc).map
        Prod.fst).Nodup
  | [], acc, h => h
  | x :: xs, acc, h => by
    simp only [List.foldl_cons]
    exact nodup_keys_foldl key init step xs _
      (nodup_keys_updateAList (key x) (init x) (step x) acc h)

lemma nodup_keys_jsGroupBy {α κ ρ : Type} [DecidableEq κ]
    (key : α → κ) (init : α → ρ) (step : α → ρ → ρ) (xs : List α) :
    ((jsGroupBy key init step xs).map Prod.fst).Nodup :=
  nodup_keys_foldl key init step xs [] (by simp)

lemma mem_iff_lookupA {κ ρ : Type} [DecidableEq κ] :
    ∀ (l : List (κ × ρ)), (l.map Prod.fst).Nodup →
      ∀ (k : κ) (r : ρ), ((k, r) ∈ l ↔ lookupA k l = some r)
  | [], _, k, r => by simp [lookupA]
  | (k', v) :: rest, hnd, k, r => by
    simp only [List.map_cons, List.nodup_cons] at hnd
    by_cases h : k' = k
    · subst h
      have hlk : lookupA k' ((k', v) :: rest) = some v := by
        simp [lookupA]
      rw [hlk]
      constructor
      · intro hm
        rcases List.mem_cons.mp hm with heq | hmem
        · exact (congrArg (fun p => some p.2) heq).symm
        · exact absurd (List.mem_map_of_mem Prod.fst hmem) hnd.1
      · intro hs
        have hv : v = r := Option.some.inj hs
        subst hv
        exact List.mem_cons_self _ _
    · have hlk : lookupA k ((k', v) :: rest) = lookupA k rest := by
        simp [lookupA, h]
      rw [hlk, ← mem_iff_lookupA rest hnd.2 k r]
      constructor
      · intro hm
        rcases List.mem_cons.mp hm with heq | hmem
        · exact absurd (congrArg Prod.fst heq).symm h
        · exact hmem
      · exact List.mem_cons_of_mem _

/-! ## The four aggregations (pages/Analytics.tsx) -/

/-- The fixed funnel stage order
`[Stage.New, Stage.Contacted, Stage.Qualified, Stage.Proposal, Stage.Won]`
(`stageOrder` in Analytics.tsx); `Lost` is deliberately absent. -/
def stageOrder : List Stage :=
  [Stage.New, Stage.Contacted, Stage.Qualified, Stage.Proposal, Stage.Won]

/-- `funnelRawCounts`: `acc[lead.stage] = (acc[lead.stage] || 0) + 1`.
The record is keyed by the stage enum value. -/
def funnelRawCounts (leads : List Lead) : List (Stage × Nat) :=
  jsGroupBy (fun lead => lead.stage) (fun _ => 0) (fun _ n => n + 1) leads

/-- `funnelData`: one row per stage of `stageOrder`, holding
`funnelRawCounts[stage] || 0` (the UI colour field is omitted). -/
def funnelData (leads : List Lead) : List (Stage × Nat) :=
  stageOrder.map (fun stage => (stage, (lookupA stage (funnelRawCounts leads)).getD 0))

/-- A row of the `revenueByMonth` record:
`{ name: key, expected: 0, closed: 0 }` at creation. -/
structure MonthRow where
  name : String
  expected : ℚ
  closed : ℚ
deriving DecidableEq, Repr

/-- `String(m).padStart(2, '0')` for the decimal rendering of a month
number (one pad suffices since `toString` is never empty). -/
def pad2 (s : String) : String :=
  if s.length < 2 then "0" ++ s else s

/-- The period key `${date.getFullYear()}-${String(date.getMonth() + 1).padStart(2, '0')}`
derived from `lead.createdAt`. -/
def monthKey (lead : Lead) : String :=
  toString lead.createdAtYear ++ "-" ++ pad2 (toString lead.createdAtMonth)

/-- Row creation `acc[key] = { name: key, expected: 0, closed: 0 }`. -/
def monthInit (lead : Lead) : MonthRow :=
  { name := monthKey lead, expected := 0, closed := 0 }

/-- Per-lead update: `expected += lead.expectedValue` and, when
`lead.status === Status.Won`, `closed += lead.dealValue`. -/
def monthStep (lead : Lead) (r : MonthRow) : MonthRow :=
  { r with
    expected := r.expected + lead.expectedValue
    closed := if lead.status = Status.Won then r.closed + lead.dealValue else r.closed }

/-- The `revenueByMonth` reduce, grouping leads by their period key. -/
def revenueByMonth (leads : List Lead) : List (String × MonthRow) :=
  jsGroupBy monthKey monthInit monthStep leads

/-- Byte-wise lexicographic comparison of character lists: the order
`a.name.localeCompare(b.name) <= 0` computes on the ASCII
digits-and-dash period keys used here. -/
def lexLe : List Char → List Char → Bool
  | [], _ => true
  | _ :: _, [] => false
  | a :: as, b :: bs => if a < b then true else if a = b then lexLe as bs else false

/-- `revenueData`: `Object.values(revenueByMonth).sort((a, b) => a.name.localeCompare(b.name))`,
an ascending stable sort on the period key. -/
def revenueData (leads : List Lead) : List MonthRow :=
  ((revenueByMonth leads).map Prod.snd).mergeSort (fun a b => lexLe a.name.data b.name.data)

/-- A row of the `teamPerformance` record:
`{ name: owner, leads: 0, revenue: 0, won: 0 }` at creation. -/
structure TeamRow where
  name : String
  leads : Nat
  revenue : ℚ
  won : Nat
deriving DecidableEq, Repr

/-- `lead.leadOwner.split('@')[0]` — the characters before the first
`'@'` (the whole string when there is none). -/
def ownerName (s : String) : String :=
  String.mk (s.data.takeWhile (fun c => c ≠ '@'))

/-- The grouping key `const owner = lead.leadOwner.split('@')[0]`. -/
def teamKey (lead : Lead) : String :=
  ownerName lead.leadOwner

/-- Row creation `acc[owner] = { name: owner, leads: 0, revenue: 0, won: 0 }`. -/
def teamInit (lead : Lead) : TeamRow :=
  { name := teamKey lead, leads := 0, revenue := 0, won := 0 }

/-- Per-lead update: `leads += 1`, `revenue += lead.expectedValue` and,
when the lead is Won, `won += 1`. -/
def teamStep (lead : Lead) (r : TeamRow) : TeamRow :=
  { r with
    leads := r.leads + 1
    revenue := r.revenue + lead.expectedValue
    won := if lead.status = Status.Won then r.won + 1 else r.won }

/-- The `teamPerformance` reduce, grouping leads by the owner's local part. -/
def teamPerformance (leads : List Lead) : List (String × TeamRow) :=
  jsGroupBy teamKey teamInit teamStep leads

/-- `teamData`: `Object.values(teamPerformance).sort((a, b) => b.revenue - a.revenue)`,
a descending stable sort on `revenue`. -/
def teamData (leads : List Lead) : List TeamRow :=
  ((teamPerformance leads).map Prod.snd).mergeSort (fun a b => decide (b.revenue ≤ a.revenue))

/-- A row of the `sourceStats` record:
`{ name: lead.source, total: 0, won: 0 }` at creation. -/
structure SourceRow where
  name : String
  total : Nat
  won : Nat
deriving DecidableEq, Repr

/-- Row creation `acc[lead.source] = { name: lead.source, total: 0, won: 0 }`. -/
def sourceInit (lead : Lead) : SourceRow :=
  { name := lead.source, total := 0, won := 0 }

/-- Per-lead update: `total += 1` and, when the lead is Won, `won += 1`. -/
def sourceStep (lead : Lead) (s : SourceRow) : SourceRow :=
  { s with
    total := s.total + 1
    won := if lead.status = Status.Won then s.won + 1 else s.won }

/-- The `sourceStats` reduce, grouping leads by `lead.source`. -/
def sourceStats (leads : List Lead) : List (String × SourceRow) :=
  jsGroupBy (fun lead => lead.source) sourceInit sourceStep leads

/-- `Number(x.toFixed(1))` for a finite non-negative value: ECMAScript
`toFixed(1)` picks the integer n closest to 10·x, preferring the larger
n on a tie, i.e. n = ⌊10·x + 1/2⌋. -/
def jsToFixed1 (q : ℚ) : ℚ :=
  ((⌊q * 10 + 1 / 2⌋ : ℤ) : ℚ) / 10

/-- A row of `sourceConversionData`. -/
structure ConvRow where
  name : String
  rate : ℚ
  total : Nat
deriving DecidableEq, Repr

/-- `sourceConversionData`: map over `Object.values(sourceStats)` with
`rate = total > 0 ? Number(((won / total) * 100).toFixed(1)) : 0`. -/
def sourceConversionData (leads : List Lead) : List ConvRow :=
  ((sourceStats leads).map Prod.snd).map (fun s =>
    { name := s.name
      rate := if s.total > 0 then jsToFixed1 ((s.won : ℚ) / (s.total : ℚ) * 100) else 0
      total := s.total })

/-! ## Funnel: row characterization and claim C5 -/

lemma foldKey_funnel (k : Stage) :
    ∀ (ls : List Lead) (n : Nat),
      foldKey (fun l => l.stage) (fun _ n => n + 1) k ls n
        = n + ls.countP (fun l => decide (l.stage = k))
  | [], n => by simp [foldKey]
  | l :: ls, n => by
    by_cases h : l.stage = k
    · simp only [foldKey, if_pos h, foldKey_funnel k ls, List.countP_cons, h,
        decide_true_eq_true]
      simp
      omega
    · simp only [foldKey, if_neg h, foldKey_funnel k ls, List.countP_cons]
      simp [h]

lemma buildKey_funnel (k : Stage) :
    ∀ ls : List Lead,
      buildKey (fun l => l.stage) (fun _ => 0) (fun _ n => n + 1) k ls
        = if ls.countP (fun l => decide (l.stage = k)) = 0 then none
          else some (ls.countP (fun l => decide (l.stage = k)))
  | [] => by simp [buildKey]
  | l :: ls => by
    by_cases h : l.stage = k
    · simp only [buildKey, if_pos h, foldKey_funnel, List.countP_cons]
      simp [h]
      omega
    · simp only [buildKey, if_neg h, buildKey_funnel k ls, List.countP_cons]
      simp [h]

lemma funnel_count (leads : List Lead) (s : Stage) :
    (lookupA s (funnelRawCounts leads)).getD 0
      = leads.countP (fun l => decide (l.stage = s)) := by
  rw [funnelRawCounts, lookupA_jsGroupBy, buildKey_funnel]
  split_ifs with h
  · simp [h]
  · simp

lemma countP_stage_sum (leads : List Lead) :
    leads.countP (fun l => decide (l.stage = Stage.New))
      + leads.countP (fun l => decide (l.stage = Stage.Contacted))
      + leads.countP (fun l => decide (l.stage = Stage.Qualified))
      + leads.countP (fun l => decide (l.stage = Stage.Proposal))
      + leads.countP (fun l => decide (l.stage = Stage.Won))
      = leads.countP (fun l => decide (l.stage ≠ Stage.Lost)) := by
  induction leads with
  | nil => simp
  | cons l ls ih =>
    cases hst : l.stage
    all_goals
      simp only [List.countP_cons, hst]
      rw [← ih]
      simp
      try omega

/-- Claim C5: the funnel has exactly the five rows New, Contacted,
Qualified, Proposal, Won in this fixed order, each counting the leads
currently in that stage (0 when none); Lost leads appear in no row, so
the counts sum to the number of non-Lost leads, which is at most the
number of leads with equality exactly when no lead is Lost. -/
theorem funnel_rows (leads : List Lead) :
    funnelData leads
      = stageOrder.map (fun s => (s, leads.countP (fun l => decide (l.stage = s))))
    ∧ ((funnelData leads).map Prod.snd).sum
        = leads.countP (fun l => decide (l.stage ≠ Stage.Lost))
    ∧ ((funnelData leads).map Prod.snd).sum ≤ leads.length
    ∧ (((funnelData leads).map Prod.snd).sum = leads.length
        ↔ ∀ l ∈ leads, l.stage ≠ Stage.Lost) := by
  have hrow : funnelData leads
      = stageOrder.map (fun s => (s, leads.countP (fun l => decide (l.stage = s)))) := by
    simp [funnelData, funnel_count]
  have hsum : ((funnelData leads).map Prod.snd).sum
      = leads.countP (fun l => decide (l.stage ≠ Stage.Lost)) := by
    rw [hrow]
    simp only [stageOrder, List.map_cons, List.map_nil, List.sum_cons, List.sum_nil]
    have h5 := countP_stage_sum leads
    omega
  refine ⟨hrow, hsum, ?_, ?_⟩
  · rw [hsum]
    exact List.countP_le_length _
  · rw [hsum]
    constructor
    · intro h l hl
      have hp := List.countP_eq_length.mp h l hl
      simpa using hp
    · intro h
      refine List.countP_eq_length.mpr ?_
      intro l hl
      simpa using h l hl


/-! ## Cons-step helpers for counting and filtering -/

lemma countP_cons_pos {α : Type} (p : α → Bool) (a : α) (l : List α) (h : p a = true) :
    (a :: l).countP p = l.countP p + 1 := by
  simp [List.countP_cons, h]

lemma countP_cons_neg {α : Type} (p : α → Bool) (a : α) (l : List α) (h : p a = false) :
    (a :: l).countP p = l.countP p := by
  simp [List.countP_cons, h]

lemma filter_cons_pos {α : Type} (p : α → Bool) (a : α) (l : List α) (h : p a = true) :
    (a :: l).filter p = a :: l.filter p := by
  simp [List.filter_cons, h]

lemma filter_cons_neg {α : Type} (p : α → Bool) (a : α) (l : List α) (h : p a = false) :
    (a :: l).filter p = l.filter p := by
  simp [List.filter_cons, h]

/-! ## Leaderboard: row characterization, claims C3 and C8 -/

lemma foldKey_team_name (k : String) :
    ∀ (ls : List Lead) (r : TeamRow), (foldKey teamKey teamStep k ls r).name = r.name
  | [], r => rfl
  | l :: ls, r => by
    rw [foldKey, foldKey_team_name k ls]
    by_cases h : teamKey l = k
    · rw [if_pos h]
      rfl
    · rw [if_neg h]

lemma foldKey_team_leads (k : String) :
    ∀ (ls : List Lead) (r : TeamRow),
      (foldKey teamKey teamStep k ls r).leads
        = r.leads + ls.countP (fun l => decide (teamKey l = k))
  | [], r => by simp [foldKey]
  | l :: ls, r => by
    rw [foldKey, foldKey_team_leads k ls]
    by_cases h : teamKey l = k
    · rw [if_pos h,
        countP_cons_pos (fun l => decide (teamKey l = k)) l ls (by simp [h])]
      simp [teamStep]
      omega
    · rw [if_neg h,
        countP_cons_neg (fun l => decide (teamKey l = k)) l ls (by simp [h])]

lemma foldKey_team_revenue (k : String) :
    ∀ (ls : List Lead) (r : TeamRow),
      (foldKey teamKey teamStep k ls r).revenue
        = r.revenue
          + ((ls.filter (fun l => decide (teamKey l = k))).map Lead.expectedValue).sum
  | [], r => by simp [foldKey]
  | l :: ls, r => by
    rw [foldKey, foldKey_team_revenue k ls]
    by_cases h : teamKey l = k
    · rw [if_pos h,
        filter_cons_pos (fun l => decide (teamKey l = k)) l ls (by simp [h])]
      simp [teamStep]
      ring
    · rw [if_neg h,
        filter_cons_neg (fun l => decide (teamKey l = k)) l ls (by simp [h])]

lemma foldKey_team_won (k : String) :
    ∀ (ls : List Lead) (r : TeamRow),
      (foldKey teamKey teamStep k ls r).won
        = r.won + ls.countP (fun l => decide (teamKey l = k) && decide (l.status = Status.Won))
  | [], r => by simp [foldKey]
  | l :: ls, r => by
    rw [foldKey, foldKey_team_won k ls]
    by_cases h : teamKey l = k
    · by_cases hw : l.status = Status.Won
      · rw [if_pos h,
          countP_cons_pos (fun l => decide (teamKey l = k) && decide (l.status = Status.Won))
            l ls (by simp [h, hw])]
        simp [teamStep, hw]
        omega
      · rw [if_pos h,
          countP_cons_neg (fun l => decide (teamKey l = k) && decide (l.status = Status.Won))
            l ls (by simp [hw])]
        simp [teamStep, hw]
    · rw [if_neg h,
        countP_cons_neg (fun l => decide (teamKey l = k) && decide (l.status = Status.Won))
          l ls (by simp [h])]

lemma lookupA_teamPerformance_some (leads : List Lead) (k : String) (row : TeamRow) :
    lookupA k (teamPerformance leads) = some row →
      row.name = k
      ∧ row.leads = leads.countP (fun l => decide (teamKey l = k))
      ∧ row.revenue
          = ((leads.filter (fun l => decide (teamKey l = k))).map Lead.expectedValue).sum
      ∧ row.won
          = leads.countP (fun l => decide (teamKey l = k) && decide (l.status = Status.Won)) := by
  rw [teamPerformance, lookupA_jsGroupBy]
  induction leads with
  | nil =>
    intro h
    simp [buildKey] at h
  | cons l ls ih =>
    intro h
    rw [buildKey] at h
    by_cases hk : teamKey l = k
    · rw [if_pos hk] at h
      have hrow : foldKey teamKey teamStep k ls (teamStep l (teamInit l)) = row :=
        Option.some.inj h
      refine ⟨?_, ?_, ?_, ?_⟩
      · rw [← hrow, foldKey_team_name]
        simpa [teamStep, teamInit] using hk
      · rw [← hrow, foldKey_team_leads,
          countP_cons_pos (fun l => decide (teamKey l = k)) l ls (by simp [hk])]
        simp [teamStep, teamInit]
        omega
      · rw [← hrow, foldKey_team_revenue,
          filter_cons_pos (fun l => decide (teamKey l = k)) l ls (by simp [hk])]
        simp [teamStep, teamInit]
      · rw [← hrow, foldKey_team_won]
        by_cases hw : l.status = Status.Won
        · rw [countP_cons_pos (fun l => decide (teamKey l = k) && decide (l.status = Status.Won))
            l ls (by simp [hk, hw])]
          simp [teamStep, teamInit, hw]
          omega
        · rw [countP_cons_neg (fun l => decide (teamKey l = k) && decide (l.status = Status.Won))
            l ls (by simp [hw])]
          simp [teamStep, teamInit, hw]
    · rw [if_neg hk] at h
      have hconj := ih h
      rw [countP_cons_neg (fun l => decide (teamKey l = k)) l ls (by simp [hk]),
        filter_cons_neg (fun l => decide (teamKey l = k)) l ls (by simp [hk]),
        countP_cons_neg (fun l => decide (teamKey l = k) && decide (l.status = Status.Won))
          l ls (by simp [hk])]
      exact hconj

/-- Two leads whose owners share a local part but are distinct owners. -/
def exC3a : Lead := { baseLead with leadOwner := "alice@x.com" }

/-- Companion lead for the leaderboard grouping counterexample. -/
def exC3b : Lead := { baseLead with leadOwner := "alice@y.com" }

/-- Claim C3 counterexample: the leaderboard groups by
`leadOwner.split('@')[0]`, not by `leadOwner`: two leads with distinct
`leadOwner` values ("alice@x.com", "alice@y.com") produce a single row,
so there is not one row per distinct `leadOwner` and leads of different
owners are aggregated together. -/
theorem teamPerformance_merges_distinct_owners :
    (teamPerformance [exC3a, exC3b]).length = 1
    ∧ exC3a.leadOwner ≠ exC3b.leadOwner := by
  constructor
  · decide
  · decide

/-- Claim C3 (amended): the leaderboard produces exactly one row per
distinct local part of `leadOwner` (the part before the first `'@'`,
`teamKey`) occurring in the list; for each such key the row counts that
key's leads, sums `expectedValue` over all of them regardless of status,
and counts those with status Won; leads whose owners differ in local
part are never aggregated into the same row. -/
theorem teamPerformance_rows (leads : List Lead) :
    ((teamPerformance leads).map Prod.fst).Nodup
    ∧ (∀ k, (k ∈ (teamPerformance leads).map Prod.fst) ↔ ∃ l ∈ leads, teamKey l = k)
    ∧ (∀ k row, (k, row) ∈ teamPerformance leads ↔ lookupA k (teamPerformance leads) = some row)
    ∧ (∀ k row, lookupA k (teamPerformance leads) = some row →
        row.name = k
        ∧ row.leads = leads.countP (fun l => decide (teamKey l = k))
        ∧ row.revenue
            = ((leads.filter (fun l => decide (teamKey l = k))).map Lead.expectedValue).sum
        ∧ row.won
            = leads.countP (fun l => decide (teamKey l = k) && decide (l.status = Status.Won))) := by
  refine ⟨?_, ?_, ?_, fun k row h => lookupA_teamPerformance_some leads k row h⟩
  · rw [teamPerformance]
    exact nodup_keys_jsGroupBy _ _ _ _
  · intro k
    rw [teamPerformance]
    exact mem_keys_jsGroupBy _ _ _ k leads
  · intro k row
    have hnd : ((teamPerformance leads).map Prod.fst).Nodup := by
      rw [teamPerformance]
      exact nodup_keys_jsGroupBy _ _ _ _
    exact mem_iff_lookupA _ hnd k row

lemma teamLe_trans :
    ∀ (a b c : TeamRow), decide (b.revenue ≤ a.revenue) = true →
      decide (c.revenue ≤ b.revenue) = true → decide (c.revenue ≤ a.revenue) = true := by
  intro a b c h1 h2
  simp only [decide_eq_true_eq] at h1 h2 ⊢
  exact le_trans h2 h1

lemma teamLe_total :
    ∀ (a b : TeamRow),
      (decide (b.revenue ≤ a.revenue) || decide (a.revenue ≤ b.revenue)) = true := by
  intro a b
  simp only [Bool.or_eq_true, decide_eq_true_eq]
  exact le_total _ _

/-- Claim C8: the leaderboard output is sorted descending by
`revenue` (pipeline value): every earlier row has revenue at least that
of any later row, and rows with equal revenue keep the order in which
their owner keys were first discovered in the input (the order of
`teamPerformance`, a stable sort). -/
theorem leaderboard_sorted (leads : List Lead) :
    (teamData leads).Pairwise (fun a b => b.revenue ≤ a.revenue)
    ∧ (∀ a b, [a, b].Sublist (teamData leads) → b.revenue ≤ a.revenue)
    ∧ (∀ a b, [a, b].Sublist ((teamPerformance leads).map Prod.snd) →
        a.revenue = b.revenue → [a, b].Sublist (teamData leads)) := by
  have hpair : (teamData leads).Pairwise
      (fun a b => decide (b.revenue ≤ a.revenue) = true) := by
    rw [teamData]
    exact List.sorted_mergeSort teamLe_trans teamLe_total _
  refine ⟨hpair.imp (fun h => of_decide_eq_true h), ?_, ?_⟩
  · intro a b hsub
    have hp : ([a, b]).Pairwise (fun a b => decide (b.revenue ≤ a.revenue) = true) :=
      hpair.sublist hsub
    have hab := (List.pairwise_cons.mp hp).1 b (by simp)
    exact of_decide_eq_true hab
  · intro a b hsub heq
    rw [teamData]
    refine List.sublist_mergeSort teamLe_trans teamLe_total ?_ hsub
    refine List.pairwise_cons.mpr ⟨?_, List.pairwise_singleton _ _⟩
    intro y hy
    have hyb : y = b := by simpa using hy
    subst hyb
    exact decide_eq_true (le_of_eq heq.symm)

/-! ## Revenue trend: row characterization and claim C6 -/

lemma foldKey_month_name (k : String) :
    ∀ (ls : List Lead) (r : MonthRow), (foldKey monthKey monthStep k ls r).name = r.name
  | [], r => rfl
  | l :: ls, r => by
    rw [foldKey, foldKey_month_name k ls]
    by_cases h : monthKey l = k
    · rw [if_pos h]
      rfl
    · rw [if_neg h]

lemma foldKey_month_expected (k : String) :
    ∀ (ls : List Lead) (r : MonthRow),
      (foldKey monthKey monthStep k ls r).expected
        = r.expected
          + ((ls.filter (fun l => decide (monthKey l = k))).map Lead.expectedValue).sum
  | [], r => by simp [foldKey]
  | l :: ls, r => by
    rw [foldKey, foldKey_month_expected k ls]
    by_cases h : monthKey l = k
    · rw [if_pos h,
        filter_cons_pos (fun l => decide (monthKey l = k)) l ls (by simp [h])]
      simp [monthStep]
      ring
    · rw [if_neg h,
        filter_cons_neg (fun l => decide (monthKey l = k)) l ls (by simp [h])]

lemma foldKey_month_closed (k : String) :
    ∀ (ls : List Lead) (r : MonthRow),
      (foldKey monthKey monthStep k ls r).closed
        = r.closed
          + ((ls.filter (fun l => decide (monthKey l = k) && decide (l.status = Status.Won))).map
              Lead.dealValue).sum
  | [], r => by simp [foldKey]
  | l :: ls, r => by
    rw [foldKey, foldKey_month_closed k ls]
    by_cases h : monthKey l = k
    · by_cases hw : l.status = Status.Won
      · rw [if_pos h,
          filter_cons_pos (fun l => decide (monthKey l = k) && decide (l.status = Status.Won))
            l ls (by simp [h, hw])]
        simp [monthStep, hw]
        ring
      · rw [if_pos h,
          filter_cons_neg (fun l => decide (monthKey l = k) && decide (l.status = Status.Won))
            l ls (by simp [hw])]
        simp [monthStep, hw]
    · rw [if_neg h,
        filter_cons_neg (fun l => decide (monthKey l = k) && decide (l.status = Status.Won))
          l ls (by simp [h])]

lemma lookupA_revenueByMonth_some (leads : List Lead) (k : String) (row : MonthRow) :
    lookupA k (revenueByMonth leads) = some row →
      row.name = k
      ∧ row.expected
          = ((leads.filter (fun l => decide (monthKey l = k))).map Lead.expectedValue).sum
      ∧ row.closed
          = ((leads.filter (fun l => decide (monthKey l = k) && decide (l.status = Status.Won))).map
              Lead.dealValue).sum := by
  rw [revenueByMonth, lookupA_jsGroupBy]
  induction leads with
  | nil =>
    intro h
    simp [buildKey] at h
  | cons l ls ih =>
    intro h
    rw [buildKey] at h
    by_cases hk : monthKey l = k
    · rw [if_pos hk] at h
      have hrow : foldKey monthKey monthStep k ls (monthStep l (monthInit l)) = row :=
        Option.some.inj h
      refine ⟨?_, ?_, ?_⟩
      · rw [← hrow, foldKey_month_name]
        simpa [monthStep, monthInit] using hk
      · rw [← hrow, foldKey_month_expected,
          filter_cons_pos (fun l => decide (monthKey l = k)) l ls (by simp [hk])]
        simp [monthStep, monthInit]
      · rw [← hrow, foldKey_month_closed]
        by_cases hw : l.status = Status.Won
        · rw [filter_cons_pos (fun l => decide (monthKey l = k) && decide (l.status = Status.Won))
            l ls (by simp [hk, hw])]
          simp [monthStep, monthInit, hw]
        · rw [filter_cons_neg (fun l => decide (monthKey l = k) && decide (l.status = Status.Won))
            l ls (by simp [hw])]
          simp [monthStep, monthInit, hw]
    · rw [if_neg hk] at h
      have hconj := ih h
      rw [filter_cons_neg (fun l => decide (monthKey l = k)) l ls (by simp [hk]),
        filter_cons_neg (fun l => decide (monthKey l = k) && decide (l.status = Status.Won))
          l ls (by simp [hk])]
      exact hconj

lemma lexLe_trans :
    ∀ (as bs cs : List Char), lexLe as bs = true → lexLe bs cs = true → lexLe as cs = true
  | [], _, _ => fun _ _ => rfl
  | a :: as, [], cs => fun h1 _ => by simp [lexLe] at h1
  | a :: as, b :: bs, [] => fun _ h2 => by simp [lexLe] at h2
  | a :: as, b :: bs, c :: cs => fun h1 h2 => by
    simp only [lexLe] at h1 h2 ⊢
    rcases lt_trichotomy a b with hab | hab | hab
    · rcases lt_trichotomy b c with hbc | hbc | hbc
      · rw [if_pos (lt_trans hab hbc)]
      · subst hbc
        rw [if_pos hab]
      · rw [if_neg (asymm hbc), if_neg (ne_of_gt hbc)] at h2
        exact absurd h2 Bool.false_ne_true
    · subst hab
      rcases lt_trichotomy a c with hac | hac | hac
      · rw [if_pos hac]
      · subst hac
        rw [if_neg (lt_irrefl a), if_pos rfl] at h1 h2 ⊢
        exact lexLe_trans as bs cs h1 h2
      · rw [if_neg (asymm hac), if_neg (ne_of_gt hac)] at h2
        exact absurd h2 Bool.false_ne_true
    · rw [if_neg (asymm hab), if_neg (ne_of_gt hab)] at h1
      exact absurd h1 Bool.false_ne_true

lemma lexLe_total :
    ∀ (as bs : List Char), (lexLe as bs || lexLe bs as) = true
  | [], bs => by simp [lexLe]
  | a :: as, [] => by simp [lexLe]
  | a :: as, b :: bs => by
    simp only [lexLe]
    rcases lt_trichotomy a b with h | h | h
    · rw [if_pos h]
      simp
    · subst h
      rw [if_neg (lt_irrefl a), if_pos rfl, if_neg (lt_irrefl a), if_pos rfl]
      exact lexLe_total as bs
    · rw [if_pos h]
      simp

lemma monthLe_trans :
    ∀ (a b c : MonthRow), lexLe a.name.data b.name.data = true →
      lexLe b.name.data c.name.data = true → lexLe a.name.data c.name.data = true :=
  fun _ _ _ h1 h2 => lexLe_trans _ _ _ h1 h2

lemma monthLe_total :
    ∀ (a b : MonthRow), (lexLe a.name.data b.name.data || lexLe b.name.data a.name.data) = true :=
  fun _ _ => lexLe_total _ _

/-- Claim C6: the revenue trend groups leads by the zero-padded
year-month key of `createdAt`, emits exactly one row per occurring
month (rows' keys are exactly the occurring keys, with no duplicates),
where `expected` sums `expectedValue` over all of the month's leads
regardless of status and `closed` sums `dealValue` over only its Won
leads (0 when the month has no Won lead), and the rows are sorted
ascending by period key. -/
theorem revenueTrend_rows (leads : List Lead) :
    (revenueData leads).Pairwise (fun a b => lexLe a.name.data b.name.data = true)
    ∧ ((revenueData leads).map MonthRow.name).Nodup
    ∧ (∀ k, (k ∈ (revenueData leads).map MonthRow.name) ↔ ∃ l ∈ leads, monthKey l = k)
    ∧ (∀ r, r ∈ revenueData leads →
        r.expected
            = ((leads.filter (fun l => decide (monthKey l = r.name))).map Lead.expectedValue).sum
        ∧ r.closed
            = ((leads.filter (fun l =>
                decide (monthKey l = r.name) && decide (l.status = Status.Won))).map
                Lead.dealValue).sum) := by
  have hperm : (revenueData leads).Perm ((revenueByMonth leads).map Prod.snd) := by
    rw [revenueData]
    exact List.mergeSort_perm _ _
  have hnd : ((revenueByMonth leads).map Prod.fst).Nodup := by
    rw [revenueByMonth]
    exact nodup_keys_jsGroupBy _ _ _ _
  have hname : ∀ p ∈ revenueByMonth leads, MonthRow.name (Prod.snd p) = Prod.fst p := by
    intro p hp
    obtain ⟨k, r⟩ := p
    have hl : lookupA k (revenueByMonth leads) = some r := (mem_iff_lookupA _ hnd k r).mp hp
    exact (lookupA_revenueByMonth_some leads k r hl).1
  have hnames_eq : ((revenueByMonth leads).map Prod.snd).map MonthRow.name
      = (revenueByMonth leads).map Prod.fst := by
    rw [List.map_map]
    exact List.map_congr_left hname
  have hmapperm : ((revenueData leads).map MonthRow.name).Perm
      ((revenueByMonth leads).map Prod.fst) := by
    rw [← hnames_eq]
    exact hperm.map _
  refine ⟨?_, ?_, ?_, ?_⟩
  · rw [revenueData]
    exact List.sorted_mergeSort monthLe_trans monthLe_total ((revenueByMonth leads).map Prod.snd)
  · exact hmapperm.nodup_iff.mpr hnd
  · intro k
    rw [hmapperm.mem_iff, revenueByMonth]
    exact mem_keys_jsGroupBy _ _ _ k leads
  · intro r hr
    have hrv : r ∈ (revenueByMonth leads).map Prod.snd := hperm.mem_iff.mp hr
    obtain ⟨p, hp, hpr⟩ := List.mem_map.mp hrv
    obtain ⟨k, r2⟩ := p
    have hr2 : r2 = r := hpr
    subst hr2
    have hl : lookupA k (revenueByMonth leads) = some r2 := (mem_iff_lookupA _ hnd k r2).mp hp
    obtain ⟨hn, he, hc⟩ := lookupA_revenueByMonth_some leads k r2 hl
    subst hn
    exact ⟨he, hc⟩

/-! ## Source conversion: row characterization and claim C7 -/

lemma foldKey_source_name (k : String) :
    ∀ (ls : List Lead) (r : SourceRow),
      (foldKey (fun lead => lead.source) sourceStep k ls r).name = r.name
  | [], r => rfl
  | l :: ls, r => by
    rw [foldKey, foldKey_source_name k ls]
    by_cases h : l.source = k
    · rw [if_pos h]
      rfl
    · rw [if_neg h]

lemma foldKey_source_total (k : String) :
    ∀ (ls : List Lead) (r : SourceRow),
      (foldKey (fun lead => lead.source) sourceStep k ls r).total
        = r.total + ls.countP (fun l => decide (l.source = k))
  | [], r => by simp [foldKey]
  | l :: ls, r => by
    rw [foldKey, foldKey_source_total k ls]
    by_cases h : l.source = k
    · rw [if_pos h,
        countP_cons_pos (fun l => decide (l.source = k)) l ls (by simp [h])]
      simp [sourceStep]
      omega
    · rw [if_neg h,
        countP_cons_neg (fun l => decide (l.source = k)) l ls (by simp [h])]

lemma foldKey_source_won (k : String) :
    ∀ (ls : List Lead) (r : SourceRow),
      (foldKey (fun lead => lead.source) sourceStep k ls r).won
        = r.won + ls.countP (fun l => decide (l.source = k) && decide (l.status = Status.Won))
  | [], r => by simp [foldKey]
  | l :: ls, r => by
    rw [foldKey, foldKey_source_won k ls]
    by_cases h : l.source = k
    · by_cases hw : l.status = Status.Won
      · rw [if_pos h,
          countP_cons_pos (fun l => decide (l.source = k) && decide (l.status = Status.Won))
            l ls (by simp [h, hw])]
        simp [sourceStep, hw]
        omega
      · rw [if_pos h,
          countP_cons_neg (fun l => decide (l.source = k) && decide (l.status = Status.Won))
            l ls (by simp [hw])]
        simp [sourceStep, hw]
    · rw [if_neg h,
        countP_cons_neg (fun l => decide (l.source = k) && decide (l.status = Status.Won))
          l ls (by simp [h])]

lemma lookupA_sourceStats_some (leads : List Lead) (k : String) (row : SourceRow) :
    lookupA k (sourceStats leads) = some row →
      row.name = k
      ∧ row.total = leads.countP (fun l => decide (l.source = k))
      ∧ row.won = leads.countP (fun l => decide (l.source = k) && decide (l.status = Status.Won)) := by
  rw [sourceStats, lookupA_jsGroupBy]
  induction leads with
  | nil =>
    intro h
    simp [buildKey] at h
  | cons l ls ih =>
    intro h
    rw [buildKey] at h
    by_cases hk : l.source = k
    · rw [if_pos hk] at h
      have hrow : foldKey (fun lead => lead.source) sourceStep k ls
          (sourceStep l (sourceInit l)) = row := Option.some.inj h
      refine ⟨?_, ?_, ?_⟩
      · rw [← hrow, foldKey_source_name]
        simpa [sourceStep, sourceInit] using hk
      · rw [← hrow, foldKey_source_total,
          countP_cons_pos (fun l => decide (l.source = k)) l ls (by simp [hk])]
        simp [sourceStep, sourceInit]
        omega
      · rw [← hrow, foldKey_source_won]
        by_cases hw : l.status = Status.Won
        · rw [countP_cons_pos (fun l => decide (l.source = k) && decide (l.status = Status.Won))
            l ls (by simp [hk, hw])]
          simp [sourceStep, sourceInit, hw]
          omega
        · rw [countP_cons_neg (fun l => decide (l.source = k) && decide (l.status = Status.Won))
            l ls (by simp [hw])]
          simp [sourceStep, sourceInit, hw]
    · rw [if_neg hk] at h
      have hconj := ih h
      rw [countP_cons_neg (fun l => decide (l.source = k)) l ls (by simp [hk]),
        countP_cons_neg (fun l => decide (l.source = k) && decide (l.status = Status.Won))
          l ls (by simp [hk])]
      exact hconj

/-- Rounding to one decimal place, half away from zero, as the claim
states it (the claim-side restatement compared against `jsToFixed1`;
both agree on the non-negative rates produced here). -/
def specRound1 (q : ℚ) : ℚ :=
  if 0 ≤ q then ((⌊q * 10 + 1 / 2⌋ : ℤ) : ℚ) / 10
  else -(((⌊(-q) * 10 + 1 / 2⌋ : ℤ) : ℚ) / 10)

lemma jsToFixed1_eq_specRound1 (q : ℚ) (hq : 0 ≤ q) : jsToFixed1 q = specRound1 q := by
  rw [specRound1, if_pos hq, jsToFixed1]

/-- Three Website leads, exactly one of them Won. -/
def exW1 : Lead := { baseLead with source := "Website", status := Status.Won }

/-- Second Website lead (Open). -/
def exW2 : Lead := { baseLead with source := "Website", status := Status.Open }

/-- Third Website lead (Open). -/
def exW3 : Lead := { baseLead with source := "Website", status := Status.Open }

/-- Claim C7: source conversion emits exactly one row per source value
occurring in the lead list (never for an absent source), with
`total` the number of that source's leads (necessarily positive) and
`rate` equal to (wonCount / totalCount) · 100 rounded half-away-from-zero
to one decimal place; in particular 3 Website leads with 1 Won give
rate 33.3 and total 3. -/
theorem sourceConversion_rows (leads : List Lead) :
    ((sourceConversionData leads).map ConvRow.name).Nodup
    ∧ (∀ k, (k ∈ (sourceConversionData leads).map ConvRow.name) ↔ ∃ l ∈ leads, l.source = k)
    ∧ (∀ r, r ∈ sourceConversionData leads →
        r.total = leads.countP (fun l => decide (l.source = r.name))
        ∧ 0 < r.total
        ∧ r.rate = specRound1
            ((leads.countP (fun l => decide (l.source = r.name) && decide (l.status = Status.Won)) : ℚ)
              / (r.total : ℚ) * 100))
    ∧ sourceConversionData [exW1, exW2, exW3]
        = [{ name := "Website", rate := 333 / 10, total := 3 }] := by
  have hnd : ((sourceStats leads).map Prod.fst).Nodup := by
    rw [sourceStats]
    exact nodup_keys_jsGroupBy _ _ _ _
  have hname : ∀ p ∈ sourceStats leads, SourceRow.name (Prod.snd p) = Prod.fst p := by
    intro p hp
    obtain ⟨k, s⟩ := p
    have hl : lookupA k (sourceStats leads) = some s := (mem_iff_lookupA _ hnd k s).mp hp
    exact (lookupA_sourceStats_some leads k s hl).1
  have hnames_eq : (sourceConversionData leads).map ConvRow.name
      = (sourceStats leads).map Prod.fst := by
    rw [sourceConversionData, List.map_map, List.map_map]
    exact List.map_congr_left (fun p hp => hname p hp)
  refine ⟨?_, ?_, ?_, ?_⟩
  · rw [hnames_eq]
    exact hnd
  · intro k
    rw [hnames_eq, sourceStats]
    exact mem_keys_jsGroupBy _ _ _ k leads
  · intro r hr
    rw [sourceConversionData] at hr
    obtain ⟨s, hsv, hconv⟩ := List.mem_map.mp hr
    obtain ⟨p, hp, hps⟩ := List.mem_map.mp hsv
    obtain ⟨k, s2⟩ := p
    have hs2 : s2 = s := hps
    subst hs2
    subst hconv
    have hl : lookupA k (sourceStats leads) = some s2 := (mem_iff_lookupA _ hnd k s2).mp hp
    obtain ⟨hn, ht, hw⟩ := lookupA_sourceStats_some leads k s2 hl
    subst hn
    have hkmem : s2.name ∈ (sourceStats leads).map Prod.fst :=
      List.mem_map_of_mem Prod.fst hp
    rw [sourceStats] at hkmem
    obtain ⟨l, hlmem, hlsrc⟩ := (mem_keys_jsGroupBy _ _ _ _ _).mp hkmem
    have hpos : 0 < s2.total := by
      rw [ht]
      exact List.countP_pos_iff.mpr ⟨l, hlmem, by simp [hlsrc]⟩
    refine ⟨ht, hpos, ?_⟩
    show (if 0 < s2.total then jsToFixed1 ((s2.won : ℚ) / (s2.total : ℚ) * 100) else 0)
      = specRound1
          ((leads.countP (fun l => decide (l.source = s2.name) && decide (l.status = Status.Won)) : ℚ)
            / (s2.total : ℚ) * 100)
    rw [if_pos hpos, ← hw]
    refine jsToFixed1_eq_specRound1 _ ?_
    have h1 : (0 : ℚ) ≤ (s2.won : ℚ) / (s2.total : ℚ) :=
      div_nonneg (Nat.cast_nonneg _) (Nat.cast_nonneg _)
    have h2 : (0 : ℚ) ≤ 100 := by norm_num
    exact mul_nonneg h1 h2
  · have hss : sourceStats [exW1, exW2, exW3]
        = [("Website", { name := "Website", total := 3, won := 1 })] := by
      decide
    rw [sourceConversionData, hss]
    simp only [List.map_cons, List.map_nil, List.cons.injEq, and_true, ConvRow.mk.injEq]
    norm_num [jsToFixed1]
